import Mathlib

/-!
Verification of the recipe-app-api repository: a shallow embedding in Lean 4 of
the ownership-scoped queryset logic of app/recipe/views.py, the user manager of
app/core/models.py (together with the Django helpers it calls), and the
reconciliation layer of the recipe write path.  Stateful Django/DRF code is
modelled as explicit state passing over list-based stores; machine behaviour
such as Python string truthiness and int() parsing is embedded explicitly.
-/

namespace RecipeApp

/-! ## Python primitives -/

/-- Characters stripped by the Python str.strip() call used in
BaseUserManager.normalize_email (ASCII whitespace; the exotic Unicode
whitespace characters play no role in this development). -/
def pyWhitespace (c : Char) : Bool :=
  c == ' ' || c == '\t' || c == '\n' || c == '\r'

/-- Model of Python str.strip(): drop whitespace from both ends. -/
def pyStripList (cs : List Char) : List Char :=
  ((cs.dropWhile pyWhitespace).reverse.dropWhile pyWhitespace).reverse

/-- Digit-string to number; none when empty or a non-digit occurs.  This is the
core of Python int() applied to a string. -/
def digitsToNat? (cs : List Char) : Option Nat :=
  if cs = [] then none
  else if cs.all Char.isDigit then
    some (cs.foldl (fun acc c => 10 * acc + (c.toNat - '0'.toNat)) 0)
  else none

/-- Model of Python int(s) on a string: surrounding whitespace is allowed, an
optional sign, then decimal digits; anything else raises ValueError (here:
none).  Pythonic digit grouping with underscores is not used by this
repository and is omitted. -/
def pyInt? (s : String) : Option Int :=
  match pyStripList s.toList with
  | '+' :: rest => (digitsToNat? rest).map Int.ofNat
  | '-' :: rest => (digitsToNat? rest).map (fun n => -(Int.ofNat n : Int))
  | cs => (digitsToNat? cs).map Int.ofNat

/-- Parse every element of a list of strings as a Python int, failing (as the
list comprehension in RecipeViewSet._params_to_ints does) on the first
malformed element. -/
def intList? : List String → Option (List Int)
  | [] => some []
  | s :: rest =>
    match pyInt? s with
    | none => none
    | some n => (intList? rest).map (fun l => n :: l)

/-- Helper for the comma split: cur is the piece being read, in reverse. -/
def splitCommaAux : List Char → List Char → List String
  | [], cur => [String.mk cur.reverse]
  | c :: rest, cur =>
    if c = ',' then String.mk cur.reverse :: splitCommaAux rest []
    else splitCommaAux rest (c :: cur)

/-- Model of the Python split on a comma: the empty string yields one empty
piece, adjacent commas yield empty pieces. -/
def splitComma (s : String) : List String :=
  splitCommaAux s.toList []

/-- RecipeViewSet._params_to_ints: split the query string on commas and turn
each piece into an int; a malformed piece raises ValueError (none). -/
def paramsToInts (qs : String) : Option (List Int) :=
  intList? (splitComma qs)

/-- Python truthiness of an optional string, as used by the statements
if tags: and if ingredients: in RecipeViewSet.get_queryset — None and the
empty string are falsy. -/
def strTruthy : Option String → Bool
  | none => false
  | some s => !(s == "")

/-- Exceptions that can escape the queryset construction.  ValueError is the
one raised by int() on a malformed id. -/
inductive PyExc
  | valueError
deriving DecidableEq, Repr

/-- HTTP status produced when an exception escapes a DRF view: the DRF
exception handler converts only APIException subclasses plus Http404 and
PermissionDenied into responses; a ValueError propagates out of the handler
and Django answers with status 500. -/
def excStatus : PyExc → Nat
  | .valueError => 500

/-- A 4xx response, as reported to the caller. -/
def isClientError (s : Nat) : Bool :=
  400 ≤ s && s < 500

/-! ## Data model (core/models.py: Tag, Ingredient, Recipe rows) -/

/-- Shape shared by the Tag and Ingredient models: an id, the owner (the user
foreign key) and a name. -/
structure Attr where
  id : Nat
  user : Nat
  name : String
deriving DecidableEq, Repr

/-- A Recipe row, with its many-to-many tag and ingredient link sets stored as
id lists.  The price column is a two-place fixed-point decimal, embedded as an
integer count of hundredths. -/
structure Recipe where
  id : Nat
  user : Nat
  title : String
  timeMinutes : Nat
  price : Int
  description : String
  link : String
  tagIds : List Nat
  ingredientIds : List Nat
deriving DecidableEq, Repr

/-- The catalog store: the three tables plus the autoincrement counters the
next created Tag or Ingredient row will get as id. -/
structure DB where
  tags : List Attr
  ingredients : List Attr
  recipes : List Recipe
  nextTagId : Nat
  nextIngredientId : Nat
deriving DecidableEq, Repr

/-- Store sanity: primary keys are distinct and below the autoincrement
counters. -/
def DB.Wf (db : DB) : Prop :=
  (∀ t ∈ db.tags, t.id < db.nextTagId) ∧
  (∀ t ∈ db.ingredients, t.id < db.nextIngredientId) ∧
  (db.tags.map Attr.id).Nodup ∧
  (db.ingredients.map Attr.id).Nodup ∧
  (db.recipes.map Recipe.id).Nodup

/-! ## Ordering relations used by order_by -/

/-- Ordering produced by order_by on descending id. -/
def recipeIdGe (a b : Recipe) : Prop := b.id ≤ a.id

instance : DecidableRel recipeIdGe :=
  fun a b => inferInstanceAs (Decidable (b.id ≤ a.id))

instance : IsTotal Recipe recipeIdGe :=
  ⟨fun a b => Nat.le_total b.id a.id⟩

instance : IsTrans Recipe recipeIdGe :=
  ⟨fun _ _ _ hab hbc => le_trans hbc hab⟩

/-- Ordering produced by order_by on descending name. -/
def attrNameGe (a b : Attr) : Prop := b.name ≤ a.name

instance : DecidableRel attrNameGe :=
  fun a b => inferInstanceAs (Decidable (b.name ≤ a.name))

instance : IsTotal Attr attrNameGe :=
  ⟨fun a b => le_total b.name a.name⟩

instance : IsTrans Attr attrNameGe :=
  ⟨fun _ _ _ hab hbc => le_trans hbc hab⟩

/-! ## RecipeViewSet.get_queryset -/

/-- One of the two conditional id filters of RecipeViewSet.get_queryset: when
the parameter is truthy, parse it (ValueError on a malformed piece) and keep
the recipes whose link set meets the parsed id set; the join the ORM uses for
tags__id__in can duplicate rows, which the final distinct() removes, so the
kept set is the recipes with at least one matching link. -/
def applyIdFilter (param : Option String) (proj : Recipe → List Nat)
    (recipes : List Recipe) : Except PyExc (List Recipe) :=
  if strTruthy param then
    match paramsToInts (param.getD "") with
    | none => .error .valueError
    | some ids =>
      .ok (recipes.filter (fun r => (proj r).any (fun t => ids.contains (Int.ofNat t))))
  else .ok recipes

/-- RecipeViewSet.get_queryset: apply the optional tags and ingredients id
filters, then keep only the rows of the authenticated user, order by
descending id and deduplicate. -/
def recipeGetQueryset (db : DB) (uid : Nat) (tagsP ingsP : Option String) :
    Except PyExc (List Recipe) :=
  match applyIdFilter tagsP Recipe.tagIds db.recipes with
  | .error e => .error e
  | .ok q1 =>
    match applyIdFilter ingsP Recipe.ingredientIds q1 with
    | .error e => .error e
    | .ok q2 =>
      .ok ((List.insertionSort recipeIdGe (q2.filter (fun r => r.user == uid))).dedup)

/-- Status code of a GET on the recipe list endpoint: 200 with a body on
success, otherwise the status of the escaped exception. -/
def recipeListReqStatus (db : DB) (uid : Nat) (tagsP ingsP : Option String) : Nat :=
  match recipeGetQueryset db uid tagsP ingsP with
  | .ok _ => 200
  | .error e => excStatus e

/-! ## BaseRecipeAttrViewSet.get_queryset (tags and ingredients) -/

/-- BaseRecipeAttrViewSet.get_queryset, generic over the row table (Tag or
Ingredient) and the assignment test the recipe__isnull=False join performs:
parse the assigned_only parameter with int() (default 0), optionally keep only
rows referenced by at least one recipe, then scope to the authenticated user,
order by descending name and deduplicate. -/
def attrGetQueryset (rows : List Attr) (assigned : Attr → Bool) (uid : Nat)
    (assignedOnlyP : Option String) : Except PyExc (List Attr) :=
  match (match assignedOnlyP with
         | none => some (0 : Int)
         | some s => pyInt? s) with
  | none => .error .valueError
  | some n =>
    let q := if n != 0 then rows.filter assigned else rows
    .ok ((List.insertionSort attrNameGe (q.filter (fun t => t.user == uid))).dedup)

/-- A tag is assigned when some recipe links it (the recipe__isnull=False
join). -/
def isAssignedTag (db : DB) (t : Attr) : Bool :=
  db.recipes.any (fun r => r.tagIds.contains t.id)

/-- An ingredient is assigned when some recipe links it. -/
def isAssignedIngredient (db : DB) (t : Attr) : Bool :=
  db.recipes.any (fun r => r.ingredientIds.contains t.id)

/-- TagViewSet list queryset. -/
def tagList (db : DB) (uid : Nat) (p : Option String) : Except PyExc (List Attr) :=
  attrGetQueryset db.tags (isAssignedTag db) uid p

/-- IngredientViewSet list queryset. -/
def ingredientList (db : DB) (uid : Nat) (p : Option String) : Except PyExc (List Attr) :=
  attrGetQueryset db.ingredients (isAssignedIngredient db) uid p

/-! ## Detail routes: get_object over the owner-scoped queryset -/

/-- The queryset a recipe detail route is resolved against: get_queryset with
no filter parameters (owner scope, descending id, distinct). -/
def recipeOwned (db : DB) (uid : Nat) : List Recipe :=
  (List.insertionSort recipeIdGe (db.recipes.filter (fun r => r.user == uid))).dedup

/-- DRF get_object: get_object_or_404 by pk inside the owner-scoped queryset;
none models the Http404 raised on a miss. -/
def recipeGetObject (db : DB) (uid rid : Nat) : Option Recipe :=
  (recipeOwned db uid).find? (fun r => r.id == rid)

/-- Owner-scoped queryset of a Tag or Ingredient detail route (assigned_only
defaults to 0). -/
def attrOwned (rows : List Attr) (uid : Nat) : List Attr :=
  (List.insertionSort attrNameGe (rows.filter (fun t => t.user == uid))).dedup

/-- DRF get_object for the Tag and Ingredient detail routes. -/
def attrGetObject (rows : List Attr) (uid aid : Nat) : Option Attr :=
  (attrOwned rows uid).find? (fun t => t.id == aid)

/-! ## Reconciliation layer (recipe write path)

The serializer module implementing this layer is not part of the sources at
hand (only its callers in views.py and its tests are), so it is modelled from
the specification, section 4.3. -/

/-- Row match used by reconciliation: scoped to (current owner, name). -/
def attrMatch (uid : Nat) (n : String) (t : Attr) : Bool :=
  t.user == uid && t.name == n

/-- Number of rows with the given owner and name — the quantity the
uniqueness claims count. -/
def attrCount (uid : Nat) (n : String) (rows : List Attr) : Nat :=
  rows.countP (attrMatch uid n)

/-- Result of resolving a list of payload names: the updated row table, the
resolved row ids in payload order, and the advanced autoincrement counter. -/
structure GocResult where
  rows : List Attr
  ids : List Nat
  next : Nat
deriving DecidableEq, Repr

/-- Modelled from the spec: recipe/serializers.py (the get-or-create
reconciliation of nested tag and ingredient payloads) is not among the given
sources.  Specification 4.3 step 1: for each entry, look up an existing row
scoped to (current owner, name); if found, reuse it; else create a new row
owned by the current user. -/
def getOrCreateAttrs (uid : Nat) : List String → List Attr → Nat → GocResult
  | [], rows, nid => ⟨rows, [], nid⟩
  | n :: rest, rows, nid =>
    match rows.find? (attrMatch uid n) with
    | some t =>
      let r := getOrCreateAttrs uid rest rows nid
      ⟨r.rows, t.id :: r.ids, r.next⟩
    | none =>
      let r := getOrCreateAttrs uid rest (rows ++ [⟨nid, uid, n⟩]) (nid + 1)
      ⟨r.rows, nid :: r.ids, r.next⟩

/-- Modelled from the spec: one relation of a recipe write.  A missing payload
leaves the row table and the membership set alone; a present payload resolves
every name and replaces the membership set with exactly the resolved set
(specification 4.3 steps 2 and 3: order not significant, duplicates collapse,
an empty list clears the relation). -/
def reconcile (uid : Nat) (payload : Option (List String)) (rows : List Attr)
    (cur : List Nat) (nid : Nat) : List Attr × List Nat × Nat :=
  match payload with
  | none => (rows, cur, nid)
  | some names =>
    let g := getOrCreateAttrs uid names rows nid
    (g.rows, g.ids.dedup, g.next)

/-- Scalar part of a recipe write payload.  The user entry models an
owner/user field supplied by the caller. -/
inductive ScalarField
  | title (v : String)
  | timeMinutes (v : Nat)
  | price (v : Int)
  | description (v : String)
  | link (v : String)
  | user (v : Nat)
deriving DecidableEq, Repr

/-- Does the entry target the owner field? -/
def ScalarField.targetsUser : ScalarField → Bool
  | .user _ => true
  | _ => false

/-- Modelled from the spec: application of one supplied scalar field
(specification 4.3 steps 4 and 6 — scalar fields are updated directly, an
owner field in the payload is ignored entirely, never applied). -/
def applyScalar (r : Recipe) : ScalarField → Recipe
  | .title v => { r with title := v }
  | .timeMinutes v => { r with timeMinutes := v }
  | .price v => { r with price := v }
  | .description v => { r with description := v }
  | .link v => { r with link := v }
  | .user _ => r

/-- A patch payload: the supplied scalar fields plus the optional
nested tag and ingredient name lists. -/
structure RecipePayload where
  scalars : List ScalarField
  tags : Option (List String)
  ingredients : Option (List String)
deriving Repr

/-- Modelled from the spec: the serializer update step of a recipe patch — reconcile both relations, apply the supplied scalar fields, and
store the rewritten recipe row (specification 4.3). -/
def performUpdate (db : DB) (uid : Nat) (r : Recipe) (p : RecipePayload) : DB :=
  let tg := reconcile uid p.tags db.tags r.tagIds db.nextTagId
  let ig := reconcile uid p.ingredients db.ingredients r.ingredientIds db.nextIngredientId
  let r1 := p.scalars.foldl applyScalar r
  let r2 := { r1 with tagIds := tg.2.1, ingredientIds := ig.2.1 }
  { tags := tg.1
    ingredients := ig.1
    recipes := db.recipes.map (fun x => if x.id == r.id then r2 else x)
    nextTagId := tg.2.2
    nextIngredientId := ig.2.2 }

/-! ## Request-level operations (status code plus resulting store) -/

/-- Recipe detail request: 404 on a miss of the owner-scoped queryset. -/
def recipeDetailReq (db : DB) (uid rid : Nat) : Nat × Option Recipe :=
  match recipeGetObject db uid rid with
  | none => (404, none)
  | some r => (200, some r)

/-- Recipe update request: get_object first (404 leaves the store untouched),
then the serializer update. -/
def recipeUpdateReq (db : DB) (uid rid : Nat) (p : RecipePayload) : Nat × DB :=
  match recipeGetObject db uid rid with
  | none => (404, db)
  | some r => (200, performUpdate db uid r p)

/-- Recipe delete request: get_object first, then instance.delete(). -/
def recipeDestroyReq (db : DB) (uid rid : Nat) : Nat × DB :=
  match recipeGetObject db uid rid with
  | none => (404, db)
  | some _ => (204, { db with recipes := db.recipes.filter (fun r => !(r.id == rid)) })

/-- Tag or Ingredient detail request. -/
def attrDetailReq (rows : List Attr) (uid aid : Nat) : Nat × Option Attr :=
  match attrGetObject rows uid aid with
  | none => (404, none)
  | some t => (200, some t)

/-- Tag or Ingredient update request with a name payload (the serializer
writes the name field only). -/
def attrUpdateReq (rows : List Attr) (uid aid : Nat) (newName : String) :
    Nat × List Attr :=
  match attrGetObject rows uid aid with
  | none => (404, rows)
  | some _ => (200, rows.map (fun x => if x.id == aid then { x with name := newName } else x))

/-- Tag or Ingredient delete request. -/
def attrDestroyReq (rows : List Attr) (uid aid : Nat) : Nat × List Attr :=
  match attrGetObject rows uid aid with
  | none => (404, rows)
  | some _ => (204, rows.filter (fun t => !(t.id == aid)))

/-- Recipe row by primary key, for reading a store back. -/
def DB.recipeById (db : DB) (rid : Nat) : Option Recipe :=
  db.recipes.find? (fun r => r.id == rid)

/-! ## Identity store (core/models.py UserManager) -/

/-- A user row.  The password column always holds the output of the hasher,
never the raw password. -/
structure User where
  id : Nat
  email : String
  name : String
  isActive : Bool
  isStaff : Bool
  isSuperuser : Bool
  passwordHash : String
deriving DecidableEq, Repr

/-- The users table plus its autoincrement counter. -/
structure UserStore where
  users : List User
  nextUserId : Nat
deriving DecidableEq, Repr

/-- Stand-in for set_password: an uninterpreted injective hashing step (its
internals are delegated to the framework and are not inspected by any
claim). -/
def hashPassword (pw : String) : String :=
  "pbkdf2$" ++ pw

/-- Model of str.rsplit on the at sign with maxsplit one, as used by
normalize_email: split at the last at sign; none models the ValueError raised
when the string has no at sign. -/
def rsplitAtSign (cs : List Char) : Option (List Char × List Char) :=
  let rev := cs.reverse
  match rev.dropWhile (fun c => c != '@') with
  | [] => none
  | _ :: pre => some (pre.reverse, (rev.takeWhile (fun c => c != '@')).reverse)

/-- Django BaseUserManager.normalize_email: strip the string and split it at
the last at sign; on success rebuild it with the domain part lower-cased, on
ValueError return the original string unchanged. -/
def normalize_email (email : String) : String :=
  match rsplitAtSign (pyStripList email.toList) with
  | none => email
  | some (nm, dom) => String.mk (nm ++ '@' :: dom.map Char.toLower)

/-- Is the (unique) email column already taken? -/
def emailTaken (st : UserStore) (e : String) : Bool :=
  st.users.any (fun u => u.email == e)

/-- Errors of the user factory: the ValueError raised on a falsy email, and
the integrity error the store raises when the unique email column collides. -/
inductive UserErr
  | valueError
  | integrityError
deriving DecidableEq, Repr

/-- UserManager.create_user: reject a falsy (empty) email with ValueError,
normalize the email, hash the password and save the new row; the unique
constraint on email makes the save fail on a duplicate. -/
def create_user (st : UserStore) (email pw : String) :
    Except UserErr (UserStore × User) :=
  if email = "" then .error .valueError
  else
    let e := normalize_email email
    if emailTaken st e then .error .integrityError
    else
      let u : User :=
        { id := st.nextUserId, email := e, name := "", isActive := true,
          isStaff := false, isSuperuser := false, passwordHash := hashPassword pw }
      .ok ({ users := st.users ++ [u], nextUserId := st.nextUserId + 1 }, u)

/-! ## Helper lemmas -/

theorem find?_append_left {α : Type} {p : α → Bool} {l₁ : List α} (l₂ : List α) {a : α}
    (h : l₁.find? p = some a) : (l₁ ++ l₂).find? p = some a := by
  induction l₁ with
  | nil => simp at h
  | cons x xs ih =>
    simp only [List.find?, List.cons_append] at h ⊢
    cases hx : p x with
    | true => simp only [hx] at h ⊢; exact h
    | false => simp only [hx] at h ⊢; exact ih h

theorem find?_append_right {α : Type} {p : α → Bool} {l₁ : List α} (l₂ : List α)
    (h : l₁.find? p = none) : (l₁ ++ l₂).find? p = l₂.find? p := by
  induction l₁ with
  | nil => simp
  | cons x xs ih =>
    simp only [List.find?, List.cons_append] at h ⊢
    cases hx : p x with
    | true => simp only [hx] at h; exact Option.noConfusion h
    | false => simp only [hx] at h ⊢; exact ih h

theorem mem_sortDedup {α : Type} [DecidableEq α] (r : α → α → Prop) [DecidableRel r]
    (l : List α) (a : α) : a ∈ (List.insertionSort r l).dedup ↔ a ∈ l := by
  rw [List.mem_dedup]
  exact (List.perm_insertionSort r l).mem_iff

theorem mem_recipeOwned {db : DB} {uid : Nat} {r : Recipe} :
    r ∈ recipeOwned db uid ↔ r ∈ db.recipes ∧ r.user = uid := by
  unfold recipeOwned
  rw [mem_sortDedup, List.mem_filter, beq_iff_eq]

theorem mem_attrOwned {rows : List Attr} {uid : Nat} {t : Attr} :
    t ∈ attrOwned rows uid ↔ t ∈ rows ∧ t.user = uid := by
  unfold attrOwned
  rw [mem_sortDedup, List.mem_filter, beq_iff_eq]

theorem recipeGetQueryset_user {db : DB} {uid : Nat} {tp ip : Option String}
    {l : List Recipe} (h : recipeGetQueryset db uid tp ip = .ok l) :
    ∀ r ∈ l, r.user = uid := by
  unfold recipeGetQueryset at h
  split at h
  · exact absurd h (by simp)
  · split at h
    · exact absurd h (by simp)
    · injection h with h
      intro r hr
      rw [← h, mem_sortDedup, List.mem_filter, beq_iff_eq] at hr
      exact hr.2

theorem attrGetQueryset_user {rows : List Attr} {assigned : Attr → Bool} {uid : Nat}
    {p : Option String} {l : List Attr} (h : attrGetQueryset rows assigned uid p = .ok l) :
    ∀ t ∈ l, t.user = uid := by
  unfold attrGetQueryset at h
  cases hn : (match p with
              | none => some (0 : Int)
              | some s => pyInt? s) with
  | none => rw [hn] at h; exact absurd h (by simp)
  | some n =>
    rw [hn] at h
    simp only at h
    injection h with h
    intro t ht
    rw [← h, mem_sortDedup, List.mem_filter, beq_iff_eq] at ht
    exact ht.2

/-! ## Claim theorems: list endpoints -/

/-- Claim C10: a recipe list request in which the tags or ingredients query
parameter is present but equal to the empty string is treated exactly as if
the parameter were absent — no filter is applied, no parse error is raised,
and all recipes of the user are returned. -/
theorem empty_filter_param_like_absent (db : DB) (uid : Nat) (p : Option String) :
    recipeGetQueryset db uid (some "") p = recipeGetQueryset db uid none p ∧
    recipeGetQueryset db uid p (some "") = recipeGetQueryset db uid p none ∧
    recipeGetQueryset db uid (some "") (some "") = .ok (recipeOwned db uid) ∧
    (∀ r, r ∈ recipeOwned db uid ↔ r ∈ db.recipes ∧ r.user = uid) := by
  have hfalsy : strTruthy (some "") = false := by decide
  have happ : ∀ proj rs, applyIdFilter (some "") proj rs = .ok rs := by
    intro proj rs
    unfold applyIdFilter
    rw [hfalsy]
    simp
  refine ⟨?_, ?_, ?_, fun r => mem_recipeOwned⟩
  · unfold recipeGetQueryset
    rw [happ]
    rfl
  · unfold recipeGetQueryset
    cases h1 : applyIdFilter p Recipe.tagIds db.recipes with
    | error e => rfl
    | ok q1 => dsimp only; rw [happ]; rfl
  · unfold recipeGetQueryset
    rw [happ]
    dsimp only
    rw [happ]
    rfl

/-- Claim C3: every row returned by the recipe, tag or ingredient list
operation, under any combination of the supported query filters, is owned by
the authenticated user. -/
theorem list_results_scoped_to_owner (db : DB) (uid : Nat)
    (tagsP ingsP aP1 aP2 : Option String)
    (l1 : List Recipe) (l2 l3 : List Attr)
    (h1 : recipeGetQueryset db uid tagsP ingsP = .ok l1)
    (h2 : tagList db uid aP1 = .ok l2)
    (h3 : ingredientList db uid aP2 = .ok l3) :
    (∀ r ∈ l1, r.user = uid) ∧ (∀ t ∈ l2, t.user = uid) ∧ (∀ t ∈ l3, t.user = uid) :=
  ⟨recipeGetQueryset_user h1, attrGetQueryset_user h2, attrGetQueryset_user h3⟩

/-- Witness for C3 on a concrete two-user store. -/
theorem list_results_scoped_to_owner_witness :
    recipeGetQueryset ⟨[⟨1, 1, "X"⟩], [⟨2, 2, "Y"⟩],
      [⟨5, 1, "A", 3, 100, "", "", [1], []⟩, ⟨6, 2, "B", 4, 200, "", "", [], [2]⟩], 3, 3⟩
      1 none none = .ok [⟨5, 1, "A", 3, 100, "", "", [1], []⟩] ∧
    ((∀ r ∈ [(⟨5, 1, "A", 3, 100, "", "", [1], []⟩ : Recipe)], r.user = 1)) := by
  have h1 : recipeGetQueryset ⟨[⟨1, 1, "X"⟩], [⟨2, 2, "Y"⟩],
      [⟨5, 1, "A", 3, 100, "", "", [1], []⟩, ⟨6, 2, "B", 4, 200, "", "", [], [2]⟩], 3, 3⟩
      1 none none = .ok [⟨5, 1, "A", 3, 100, "", "", [1], []⟩] := by rfl
  have h2 : tagList ⟨[⟨1, 1, "X"⟩], [⟨2, 2, "Y"⟩],
      [⟨5, 1, "A", 3, 100, "", "", [1], []⟩, ⟨6, 2, "B", 4, 200, "", "", [], [2]⟩], 3, 3⟩
      1 none = .ok [⟨1, 1, "X"⟩] := by rfl
  have h3 : ingredientList ⟨[⟨1, 1, "X"⟩], [⟨2, 2, "Y"⟩],
      [⟨5, 1, "A", 3, 100, "", "", [1], []⟩, ⟨6, 2, "B", 4, 200, "", "", [], [2]⟩], 3, 3⟩
      1 none = .ok [] := by rfl
  exact ⟨h1, (list_results_scoped_to_owner _ 1 none none none none _ _ _ h1 h2 h3).1⟩

/-- Claim C5 counterexample: with a malformed id in the tags parameter the
request status is 500 — a server error, not the 4xx client error the claim
asserts. -/
theorem malformed_filter_counterexample :
    recipeListReqStatus ⟨[], [], [], 0, 0⟩ 1 (some "abc") none = 500 ∧
    isClientError 500 = false := by
  exact ⟨rfl, rfl⟩

/-- Claim C5 as amended: a recipe list request whose tags or ingredients
parameter is a non-empty string containing a non-integer item fails with an
uncaught ValueError, which surfaces as HTTP 500 — a server error, not a
client error. -/
theorem malformed_filter_server_error (db : DB) (uid : Nat) (s : String)
    (p : Option String) (hs : s ≠ "") (h : paramsToInts s = none) :
    recipeListReqStatus db uid (some s) p = 500 ∧
    recipeListReqStatus db uid p (some s) = 500 ∧
    isClientError 500 = false := by
  have htr : strTruthy (some s) = true := by
    show (!(s == "")) = true
    rw [beq_eq_false_iff_ne.mpr hs]
    rfl
  have hfil : ∀ proj rs, applyIdFilter (some s) proj rs = .error .valueError := by
    intro proj rs
    unfold applyIdFilter
    rw [htr]
    simp [h]
  refine ⟨?_, ?_, rfl⟩
  · unfold recipeListReqStatus recipeGetQueryset
    rw [hfil]
    rfl
  · unfold recipeListReqStatus recipeGetQueryset
    cases h1 : applyIdFilter p Recipe.tagIds db.recipes with
    | error e => cases e; rfl
    | ok q1 => dsimp only; rw [hfil]; rfl

/-- Witness for C5: the amended claim applied to a concrete store and the
malformed parameter value abc. -/
theorem malformed_filter_server_error_witness :
    ("abc" ≠ "" ∧ paramsToInts "abc" = none) ∧
    (recipeListReqStatus ⟨[], [], [], 0, 0⟩ 1 (some "abc") none = 500 ∧
     recipeListReqStatus ⟨[], [], [], 0, 0⟩ 1 none (some "abc") = 500 ∧
     isClientError 500 = false) :=
  ⟨⟨by decide, by rfl⟩,
   malformed_filter_server_error ⟨[], [], [], 0, 0⟩ 1 "abc" none (by decide) (by rfl)⟩

/-- Claim C6: with assigned_only equal to 1 the tag or ingredient list
operation returns exactly the rows of the user referenced by at least one
recipe, each row at most once and ordered by name descending; with the flag
absent or 0, all rows of the user are returned in the same order. -/
theorem assigned_only_filter (rows : List Attr) (assigned : Attr → Bool) (uid : Nat) :
    (∃ l, attrGetQueryset rows assigned uid (some "1") = .ok l ∧
       (∀ t, t ∈ l ↔ t ∈ rows ∧ t.user = uid ∧ assigned t = true) ∧
       l.Nodup ∧ List.Sorted attrNameGe l) ∧
    (∃ l, attrGetQueryset rows assigned uid none = .ok l ∧
       (∀ t, t ∈ l ↔ t ∈ rows ∧ t.user = uid) ∧
       l.Nodup ∧ List.Sorted attrNameGe l) ∧
    attrGetQueryset rows assigned uid (some "0") = attrGetQueryset rows assigned uid none := by
  refine ⟨⟨(List.insertionSort attrNameGe
        ((rows.filter assigned).filter (fun t => t.user == uid))).dedup,
      rfl, ?_, List.nodup_dedup _, ?_⟩,
    ⟨(List.insertionSort attrNameGe (rows.filter (fun t => t.user == uid))).dedup,
      rfl, ?_, List.nodup_dedup _, ?_⟩, rfl⟩
  · intro t
    rw [mem_sortDedup, List.mem_filter, List.mem_filter, beq_iff_eq]
    tauto
  · exact List.Pairwise.sublist (List.dedup_sublist _) (List.sorted_insertionSort _ _)
  · intro t
    rw [mem_sortDedup, List.mem_filter, beq_iff_eq]
  · exact List.Pairwise.sublist (List.dedup_sublist _) (List.sorted_insertionSort _ _)

theorem recipeGetObject_none {db : DB} {uid rid : Nat}
    (h : ∀ x ∈ db.recipes, x.id = rid → x.user ≠ uid) :
    recipeGetObject db uid rid = none := by
  unfold recipeGetObject
  rw [List.find?_eq_none]
  intro x hx hpx
  rw [mem_recipeOwned] at hx
  exact h x hx.1 (beq_iff_eq.mp hpx) hx.2

theorem attrGetObject_none {rows : List Attr} {uid aid : Nat}
    (h : ∀ x ∈ rows, x.id = aid → x.user ≠ uid) :
    attrGetObject rows uid aid = none := by
  unfold attrGetObject
  rw [List.find?_eq_none]
  intro x hx hpx
  rw [mem_attrOwned] at hx
  exact h x hx.1 (beq_iff_eq.mp hpx) hx.2

/-- Claim C4: a detail, update or delete request on a recipe, tag or
ingredient row owned by uid1, issued by a different authenticated user uid2,
answers 404 NotFound — the same outcome as for an id no row has — and leaves
the store completely unchanged. -/
theorem cross_owner_requests_not_found (db : DB) (rows : List Attr)
    (uid1 uid2 : Nat) (r : Recipe) (t : Attr) (p : RecipePayload) (nm : String)
    (hdb : db.Wf) (hrowsNd : (rows.map Attr.id).Nodup)
    (hr : r ∈ db.recipes) (hru : r.user = uid1)
    (ht : t ∈ rows) (htu : t.user = uid1)
    (hne : uid1 ≠ uid2) :
    (recipeDetailReq db uid2 r.id = (404, none) ∧
     recipeUpdateReq db uid2 r.id p = (404, db) ∧
     recipeDestroyReq db uid2 r.id = (404, db)) ∧
    (attrDetailReq rows uid2 t.id = (404, none) ∧
     attrUpdateReq rows uid2 t.id nm = (404, rows) ∧
     attrDestroyReq rows uid2 t.id = (404, rows)) ∧
    (∀ rid2, (∀ x ∈ db.recipes, x.id ≠ rid2) →
      recipeDetailReq db uid2 rid2 = (404, none) ∧
      recipeUpdateReq db uid2 rid2 p = (404, db) ∧
      recipeDestroyReq db uid2 rid2 = (404, db)) ∧
    (∀ aid2, (∀ x ∈ rows, x.id ≠ aid2) →
      attrDetailReq rows uid2 aid2 = (404, none) ∧
      attrUpdateReq rows uid2 aid2 nm = (404, rows) ∧
      attrDestroyReq rows uid2 aid2 = (404, rows)) := by
  have hrnone : recipeGetObject db uid2 r.id = none := by
    apply recipeGetObject_none
    intro x hx hid
    have hxr : x = r := List.inj_on_of_nodup_map hdb.2.2.2.2 hx hr hid
    rw [hxr, hru]
    exact hne
  have htnone : attrGetObject rows uid2 t.id = none := by
    apply attrGetObject_none
    intro x hx hid
    have hxt : x = t := List.inj_on_of_nodup_map hrowsNd hx ht hid
    rw [hxt, htu]
    exact hne
  refine ⟨⟨?_, ?_, ?_⟩, ⟨?_, ?_, ?_⟩, ?_, ?_⟩
  · unfold recipeDetailReq; rw [hrnone]
  · unfold recipeUpdateReq; rw [hrnone]
  · unfold recipeDestroyReq; rw [hrnone]
  · unfold attrDetailReq; rw [htnone]
  · unfold attrUpdateReq; rw [htnone]
  · unfold attrDestroyReq; rw [htnone]
  · intro rid2 hmiss
    have hnone : recipeGetObject db uid2 rid2 = none :=
      recipeGetObject_none (fun x hx hid => absurd hid (hmiss x hx))
    refine ⟨?_, ?_, ?_⟩
    · unfold recipeDetailReq; rw [hnone]
    · unfold recipeUpdateReq; rw [hnone]
    · unfold recipeDestroyReq; rw [hnone]
  · intro aid2 hmiss
    have hnone : attrGetObject rows uid2 aid2 = none :=
      attrGetObject_none (fun x hx hid => absurd hid (hmiss x hx))
    refine ⟨?_, ?_, ?_⟩
    · unfold attrDetailReq; rw [hnone]
    · unfold attrUpdateReq; rw [hnone]
    · unfold attrDestroyReq; rw [hnone]

/-- Witness for C4: a concrete recipe and tag of user 1, requested by user
2. -/
theorem cross_owner_requests_not_found_witness :
    ((⟨[⟨7, 1, "T"⟩], [], [⟨5, 1, "A", 3, 100, "", "", [7], []⟩], 8, 1⟩ : DB).Wf ∧
      ([(⟨7, 1, "T"⟩ : Attr)].map Attr.id).Nodup ∧ (1 : Nat) ≠ 2) ∧
    (recipeDetailReq ⟨[⟨7, 1, "T"⟩], [], [⟨5, 1, "A", 3, 100, "", "", [7], []⟩], 8, 1⟩
        2 5 = (404, none) ∧
     attrDetailReq [(⟨7, 1, "T"⟩ : Attr)] 2 7 = (404, none)) := by
  have h := cross_owner_requests_not_found
    ⟨[⟨7, 1, "T"⟩], [], [⟨5, 1, "A", 3, 100, "", "", [7], []⟩], 8, 1⟩
    [⟨7, 1, "T"⟩] 1 2 ⟨5, 1, "A", 3, 100, "", "", [7], []⟩ ⟨7, 1, "T"⟩
    ⟨[], none, none⟩ "N"
    (by constructor <;> simp) (by simp)
    (by simp) rfl (by simp) rfl (by decide)
  exact ⟨⟨by constructor <;> simp, by simp, by decide⟩, h.1.1, h.2.1.1⟩

theorem takeWhile_append_all {α : Type} {p : α → Bool} {xs : List α}
    (h : ∀ x ∈ xs, p x = true) {y : α} (hy : p y = false) (ys : List α) :
    (xs ++ y :: ys).takeWhile p = xs := by
  induction xs with
  | nil => simp [List.takeWhile, hy]
  | cons x xs ih =>
    have hx : p x = true := h x (List.mem_cons_self x xs)
    simp only [List.cons_append, List.takeWhile, hx]
    show x :: (xs ++ y :: ys).takeWhile p = x :: xs
    rw [ih (fun z hz => h z (List.mem_cons_of_mem x hz))]

theorem dropWhile_append_all {α : Type} {p : α → Bool} {xs : List α}
    (h : ∀ x ∈ xs, p x = true) {y : α} (hy : p y = false) (ys : List α) :
    (xs ++ y :: ys).dropWhile p = y :: ys := by
  induction xs with
  | nil => simp [List.dropWhile, hy]
  | cons x xs ih =>
    have hx : p x = true := h x (List.mem_cons_self x xs)
    simp only [List.cons_append, List.dropWhile, hx]
    exact ih (fun z hz => h z (List.mem_cons_of_mem x hz))

theorem rsplitAtSign_eq {lc dc : List Char} (hdom : '@' ∉ dc) :
    rsplitAtSign (lc ++ '@' :: dc) = some (lc, dc) := by
  unfold rsplitAtSign
  have hrev : (lc ++ '@' :: dc).reverse = dc.reverse ++ '@' :: lc.reverse := by
    simp
  have hall : ∀ c ∈ dc.reverse, (c != '@') = true := by
    intro c hc
    rw [List.mem_reverse] at hc
    rw [bne_iff_ne]
    intro he
    exact hdom (he ▸ hc)
  have hat : (('@' : Char) != '@') = false := by decide
  rw [hrev]
  dsimp only
  rw [dropWhile_append_all hall hat, takeWhile_append_all hall hat]
  simp

theorem normalize_email_eq {lc dc : List Char} (hdom : '@' ∉ dc)
    (hstrip : pyStripList (lc ++ '@' :: dc) = lc ++ '@' :: dc) :
    normalize_email (String.mk (lc ++ '@' :: dc)) =
      String.mk (lc ++ '@' :: dc.map Char.toLower) := by
  unfold normalize_email
  have : (String.mk (lc ++ '@' :: dc)).toList = lc ++ '@' :: dc := rfl
  rw [this, hstrip, rsplitAtSign_eq hdom]

/-- Claim C7: create_user persists the email with only the domain portion
(the part after the at sign) lower-cased while the typed local part is kept
exactly; the hypotheses say the address has no further at sign in the domain
and no surrounding whitespace for strip to remove, and that the email column
is still free. -/
theorem create_user_normalizes_domain (st : UserStore) (lc dc : List Char)
    (pw : String) (hdom : '@' ∉ dc)
    (hstrip : pyStripList (lc ++ '@' :: dc) = lc ++ '@' :: dc)
    (hfresh : emailTaken st (String.mk (lc ++ '@' :: dc.map Char.toLower)) = false) :
    ∃ st2 u, create_user st (String.mk (lc ++ '@' :: dc)) pw = .ok (st2, u) ∧
      u.email = String.mk (lc ++ '@' :: dc.map Char.toLower) ∧
      u ∈ st2.users := by
  have hne : String.mk (lc ++ '@' :: dc) ≠ "" := by
    intro h
    have : lc ++ '@' :: dc = ([] : List Char) := congrArg String.data h
    simp at this
  have heq : create_user st (String.mk (lc ++ '@' :: dc)) pw =
      .ok ((⟨st.users ++
          [⟨st.nextUserId, String.mk (lc ++ '@' :: dc.map Char.toLower), "",
            true, false, false, hashPassword pw⟩],
          st.nextUserId + 1⟩ : UserStore),
        (⟨st.nextUserId, String.mk (lc ++ '@' :: dc.map Char.toLower), "",
          true, false, false, hashPassword pw⟩ : User)) := by
    unfold create_user
    rw [if_neg hne, normalize_email_eq hdom hstrip]
    dsimp only
    rw [hfresh]
    rfl
  exact ⟨_, _, heq, rfl, by simp⟩

/-- Witness for C7: the address TeSt2@EXAMPLE.COM is stored as
TeSt2@example.com. -/
theorem create_user_normalizes_domain_witness :
    (('@' ∉ "EXAMPLE.COM".data) ∧
      pyStripList ("TeSt2".data ++ '@' :: "EXAMPLE.COM".data) =
        "TeSt2".data ++ '@' :: "EXAMPLE.COM".data ∧
      emailTaken ⟨[], 0⟩
        (String.mk ("TeSt2".data ++ '@' :: "EXAMPLE.COM".data.map Char.toLower)) = false) ∧
    (∃ st2 u, create_user ⟨[], 0⟩
        (String.mk ("TeSt2".data ++ '@' :: "EXAMPLE.COM".data)) "pw" = .ok (st2, u) ∧
      u.email = String.mk ("TeSt2".data ++ '@' :: "EXAMPLE.COM".data.map Char.toLower) ∧
      u ∈ st2.users) :=
  ⟨⟨by decide, by decide, by decide⟩,
   create_user_normalizes_domain ⟨[], 0⟩ "TeSt2".data "EXAMPLE.COM".data "pw"
     (by decide) (by decide) (by decide)⟩

/-- Claim C8: create_user rejects an empty email with the ValueError the
manager raises, creating no user; with a non-empty email (whose normalized
form is not already taken, the email column being unique) it succeeds and
returns the newly stored user. -/
theorem create_user_requires_email (st : UserStore) (pw : String) :
    create_user st "" pw = .error .valueError ∧
    (∀ email, email ≠ "" → emailTaken st (normalize_email email) = false →
      ∃ st2 u, create_user st email pw = .ok (st2, u) ∧
        st2.users = st.users ++ [u]) := by
  constructor
  · unfold create_user
    rw [if_pos rfl]
  · intro email hne hfresh
    unfold create_user
    rw [if_neg hne]
    dsimp only
    rw [hfresh]
    exact ⟨_, _, rfl, rfl⟩

/-- Witness for C8 at a concrete store and email. -/
theorem create_user_requires_email_witness :
    create_user ⟨[], 0⟩ "" "pw" = .error .valueError ∧
    (("a@b.c" : String) ≠ "" ∧ emailTaken ⟨[], 0⟩ (normalize_email "a@b.c") = false) ∧
    (∃ st2 u, create_user ⟨[], 0⟩ "a@b.c" "pw" = .ok (st2, u) ∧
      st2.users = ([] : List User) ++ [u]) := by
  have h := create_user_requires_email ⟨[], 0⟩ "pw"
  exact ⟨h.1, ⟨by decide, by decide⟩, h.2 "a@b.c" (by decide) (by decide)⟩

/-! ## Reconciliation lemmas -/

theorem goc_rows_append (uid : Nat) (ns : List String) :
    ∀ rows nid, ∃ Δ, (getOrCreateAttrs uid ns rows nid).rows = rows ++ Δ := by
  induction ns with
  | nil => intro rows nid; exact ⟨[], by simp [getOrCreateAttrs]⟩
  | cons n rest ih =>
    intro rows nid
    cases hf : rows.find? (attrMatch uid n) with
    | some t =>
      obtain ⟨Δ, hΔ⟩ := ih rows nid
      exact ⟨Δ, by simp only [getOrCreateAttrs, hf]; exact hΔ⟩
    | none =>
      obtain ⟨Δ, hΔ⟩ := ih (rows ++ [⟨nid, uid, n⟩]) (nid + 1)
      refine ⟨⟨nid, uid, n⟩ :: Δ, ?_⟩
      simp only [getOrCreateAttrs, hf]
      rw [hΔ, List.append_assoc]
      rfl

theorem goc_invariant (uid : Nat) (ns : List String) :
    ∀ rows nid, (∀ t ∈ rows, t.id < nid) →
      (∀ t ∈ (getOrCreateAttrs uid ns rows nid).rows,
          t.id < (getOrCreateAttrs uid ns rows nid).next) ∧
      ((rows.map Attr.id).Nodup →
        (((getOrCreateAttrs uid ns rows nid).rows).map Attr.id).Nodup) := by
  induction ns with
  | nil => intro rows nid hlt; exact ⟨hlt, fun h => h⟩
  | cons n rest ih =>
    intro rows nid hlt
    cases hf : rows.find? (attrMatch uid n) with
    | some t =>
      have h := ih rows nid hlt
      constructor
      · intro x hx
        simp only [getOrCreateAttrs, hf] at hx ⊢
        exact h.1 x hx
      · intro hnd
        simp only [getOrCreateAttrs, hf]
        exact h.2 hnd
    | none =>
      have hlt2 : ∀ t ∈ rows ++ [(⟨nid, uid, n⟩ : Attr)], t.id < nid + 1 := by
        intro x hx
        rcases List.mem_append.mp hx with h1 | h1
        · exact Nat.lt_succ_of_lt (hlt x h1)
        · rw [List.mem_singleton.mp h1]
          exact Nat.lt_succ_self nid
      have h := ih (rows ++ [⟨nid, uid, n⟩]) (nid + 1) hlt2
      constructor
      · intro x hx
        simp only [getOrCreateAttrs, hf] at hx ⊢
        exact h.1 x hx
      · intro hnd
        have hnd2 : ((rows ++ [(⟨nid, uid, n⟩ : Attr)]).map Attr.id).Nodup := by
          rw [List.map_append, List.nodup_append]
          refine ⟨hnd, by simp, ?_⟩
          intro a ha hb
          simp only [List.map_cons, List.map_nil, List.mem_singleton] at hb
          obtain ⟨t2, ht2, hid⟩ := List.mem_map.mp ha
          rw [hb] at hid
          exact Nat.lt_irrefl nid (hid ▸ hlt t2 ht2)
        simp only [getOrCreateAttrs, hf]
        exact h.2 hnd2

theorem goc_find_stable {uid : Nat} {rows : List Attr} {n : String} {t : Attr}
    (ns : List String) (nid : Nat) (h : rows.find? (attrMatch uid n) = some t) :
    ((getOrCreateAttrs uid ns rows nid).rows).find? (attrMatch uid n) = some t := by
  obtain ⟨Δ, hΔ⟩ := goc_rows_append uid ns rows nid
  rw [hΔ]
  exact find?_append_left Δ h

theorem new_row_found {uid : Nat} {rows : List Attr} {m : String} (nid : Nat)
    (hf : rows.find? (attrMatch uid m) = none) :
    (rows ++ [(⟨nid, uid, m⟩ : Attr)]).find? (attrMatch uid m) = some ⟨nid, uid, m⟩ := by
  rw [find?_append_right _ hf]
  simp [List.find?, attrMatch]

theorem goc_find_all (uid : Nat) (ns : List String) :
    ∀ rows nid, ∀ n ∈ ns,
      ∃ t, ((getOrCreateAttrs uid ns rows nid).rows).find? (attrMatch uid n) = some t := by
  induction ns with
  | nil => intro rows nid n hn; exact absurd hn (List.not_mem_nil n)
  | cons m rest ih =>
    intro rows nid n hn
    cases hf : rows.find? (attrMatch uid m) with
    | some t =>
      rcases List.mem_cons.mp hn with he | hr
      · subst he
        exact ⟨t, by simp only [getOrCreateAttrs, hf]; exact goc_find_stable rest nid hf⟩
      · obtain ⟨t2, ht2⟩ := ih rows nid n hr
        exact ⟨t2, by simp only [getOrCreateAttrs, hf]; exact ht2⟩
    | none =>
      have hf2 := new_row_found nid hf
      rcases List.mem_cons.mp hn with he | hr
      · subst he
        exact ⟨⟨nid, uid, n⟩, by
          simp only [getOrCreateAttrs, hf]
          exact goc_find_stable rest (nid + 1) hf2⟩
      · obtain ⟨t2, ht2⟩ := ih (rows ++ [⟨nid, uid, m⟩]) (nid + 1) n hr
        exact ⟨t2, by simp only [getOrCreateAttrs, hf]; exact ht2⟩

theorem goc_ids_mem (uid : Nat) (ns : List String) :
    ∀ rows nid i,
      (i ∈ (getOrCreateAttrs uid ns rows nid).ids ↔
        ∃ n ∈ ns, ∃ t,
          ((getOrCreateAttrs uid ns rows nid).rows).find? (attrMatch uid n) = some t ∧
          t.id = i) := by
  induction ns with
  | nil => intro rows nid i; simp [getOrCreateAttrs]
  | cons m rest ih =>
    intro rows nid i
    cases hf : rows.find? (attrMatch uid m) with
    | some t =>
      simp only [getOrCreateAttrs, hf]
      constructor
      · intro hi
        rcases List.mem_cons.mp hi with he | hi2
        · exact ⟨m, List.mem_cons_self _ _, t, goc_find_stable rest nid hf, he.symm⟩
        · obtain ⟨n, hn, t2, hfind, hid⟩ := (ih rows nid i).mp hi2
          exact ⟨n, List.mem_cons_of_mem _ hn, t2, hfind, hid⟩
      · rintro ⟨n, hn, t2, hfind, hid⟩
        rcases List.mem_cons.mp hn with he | hr
        · subst he
          rw [goc_find_stable rest nid hf] at hfind
          injection hfind with hft
          rw [← hid, ← hft]
          exact List.mem_cons_self _ _
        · exact List.mem_cons_of_mem _ ((ih rows nid i).mpr ⟨n, hr, t2, hfind, hid⟩)
    | none =>
      simp only [getOrCreateAttrs, hf]
      have hf2 := new_row_found nid hf
      constructor
      · intro hi
        rcases List.mem_cons.mp hi with he | hi2
        · refine ⟨m, List.mem_cons_self _ _, ⟨nid, uid, m⟩,
            goc_find_stable rest (nid + 1) hf2, he.symm⟩
        · obtain ⟨n, hn, t2, hfind, hid⟩ := (ih (rows ++ [⟨nid, uid, m⟩]) (nid + 1) i).mp hi2
          exact ⟨n, List.mem_cons_of_mem _ hn, t2, hfind, hid⟩
      · rintro ⟨n, hn, t2, hfind, hid⟩
        rcases List.mem_cons.mp hn with he | hr
        · subst he
          rw [goc_find_stable rest (nid + 1) hf2] at hfind
          injection hfind with hft
          rw [← hid, ← hft]
          exact List.mem_cons_self _ _
        · exact List.mem_cons_of_mem _
            ((ih (rows ++ [⟨nid, uid, m⟩]) (nid + 1) i).mpr ⟨n, hr, t2, hfind, hid⟩)

theorem attrCount_pos_of_find {uid : Nat} {N : String} {rows : List Attr} {t : Attr}
    (hf : rows.find? (attrMatch uid N) = some t) : attrCount uid N rows ≠ 0 := by
  have hpos : 0 < rows.countP (attrMatch uid N) :=
    List.countP_pos_iff.mpr ⟨t, List.mem_of_find?_eq_some hf, List.find?_some hf⟩
  exact Nat.pos_iff_ne_zero.mp hpos

theorem attrCount_zero_of_find_none {uid : Nat} {N : String} {rows : List Attr}
    (hf : rows.find? (attrMatch uid N) = none) : attrCount uid N rows = 0 := by
  apply List.countP_eq_zero.mpr
  intro a ha
  simp [List.find?_eq_none.mp hf a ha]

theorem goc_count (uid : Nat) (N : String) (ns : List String) :
    ∀ rows nid, attrCount uid N (getOrCreateAttrs uid ns rows nid).rows =
      if attrCount uid N rows = 0 ∧ N ∈ ns then 1 else attrCount uid N rows := by
  induction ns with
  | nil => intro rows nid; simp [getOrCreateAttrs]
  | cons m rest ih =>
    intro rows nid
    cases hf : rows.find? (attrMatch uid m) with
    | some t =>
      simp only [getOrCreateAttrs, hf]
      rw [ih rows nid]
      by_cases hNm : N = m
      · subst hNm
        simp [attrCount_pos_of_find hf]
      · simp [List.mem_cons, hNm]
    | none =>
      simp only [getOrCreateAttrs, hf]
      rw [ih (rows ++ [(⟨nid, uid, m⟩ : Attr)]) (nid + 1)]
      by_cases hNm : N = m
      · subst hNm
        have h0 : attrCount uid N rows = 0 := attrCount_zero_of_find_none hf
        have h1 : attrCount uid N (rows ++ [(⟨nid, uid, N⟩ : Attr)]) = 1 := by
          unfold attrCount at h0 ⊢
          rw [List.countP_append, h0]
          simp [List.countP, List.countP.go, attrMatch]
        rw [h1]
        simp [h0]
      · have h1 : attrCount uid N (rows ++ [(⟨nid, uid, m⟩ : Attr)]) =
            attrCount uid N rows := by
          unfold attrCount
          rw [List.countP_append]
          have : attrMatch uid N ⟨nid, uid, m⟩ = false := by
            simp [attrMatch, beq_eq_false_iff_ne, Ne.symm hNm]
          simp [List.countP, List.countP.go, this]
        rw [h1]
        simp [List.mem_cons, hNm]

/-- Claim C2: the reconciliation step reuses the existing row with the given
owner and name when one exists (the row count for that pair is unchanged and
the reused id is resolved), otherwise creates exactly one row owned by the
user; it never leaves more than one row for a fresh pair even within one
operation, and two successive writes that both supply the name leave exactly
one row for the pair. -/
theorem reconciliation_reuses_or_creates_once (uid : Nat) (N : String)
    (rows : List Attr) (names1 names2 : List String) (nid1 nid2 : Nat) :
    (∀ t, rows.find? (attrMatch uid N) = some t → N ∈ names1 →
      attrCount uid N (getOrCreateAttrs uid names1 rows nid1).rows =
        attrCount uid N rows ∧
      t.id ∈ (getOrCreateAttrs uid names1 rows nid1).ids) ∧
    (rows.find? (attrMatch uid N) = none → N ∈ names1 →
      attrCount uid N (getOrCreateAttrs uid names1 rows nid1).rows = 1 ∧
      ∃ t ∈ (getOrCreateAttrs uid names1 rows nid1).rows,
        t.user = uid ∧ t.name = N) ∧
    attrCount uid N (getOrCreateAttrs uid names1 rows nid1).rows ≤
      max 1 (attrCount uid N rows) ∧
    (attrCount uid N rows = 0 → N ∈ names1 → N ∈ names2 →
      attrCount uid N (getOrCreateAttrs uid names2
        (getOrCreateAttrs uid names1 rows nid1).rows nid2).rows = 1) := by
  refine ⟨?_, ?_, ?_, ?_⟩
  · intro t hf hN
    constructor
    · rw [goc_count]
      exact if_neg (fun hc => attrCount_pos_of_find hf hc.1)
    · exact (goc_ids_mem uid names1 rows nid1 t.id).mpr
        ⟨N, hN, t, goc_find_stable names1 nid1 hf, rfl⟩
  · intro hf hN
    constructor
    · rw [goc_count]
      exact if_pos ⟨attrCount_zero_of_find_none hf, hN⟩
    · obtain ⟨t, ht⟩ := goc_find_all uid names1 rows nid1 N hN
      have hm := List.find?_some ht
      rw [attrMatch, Bool.and_eq_true, beq_iff_eq, beq_iff_eq] at hm
      exact ⟨t, List.mem_of_find?_eq_some ht, hm.1, hm.2⟩
  · rw [goc_count]
    by_cases hc : attrCount uid N rows = 0 ∧ N ∈ names1
    · rw [if_pos hc]
      exact le_max_left 1 _
    · rw [if_neg hc]
      exact le_max_right 1 _
  · intro h0 h1 h2
    have hfirst : attrCount uid N (getOrCreateAttrs uid names1 rows nid1).rows = 1 := by
      rw [goc_count]
      exact if_pos ⟨h0, h1⟩
    rw [goc_count, hfirst]
    simp

/-- Witness for C2: the name Indian submitted twice for owner 1, starting
from an empty table, leaves exactly one row. -/
theorem reconciliation_reuses_or_creates_once_witness :
    (List.find? (attrMatch 1 "Indian") ([] : List Attr) = none ∧
      "Indian" ∈ ["Indian"] ∧ attrCount 1 "Indian" ([] : List Attr) = 0) ∧
    (attrCount 1 "Indian" (getOrCreateAttrs 1 ["Indian"] ([] : List Attr) 5).rows = 1 ∧
      ∃ t ∈ (getOrCreateAttrs 1 ["Indian"] ([] : List Attr) 5).rows,
        t.user = 1 ∧ t.name = "Indian") ∧
    attrCount 1 "Indian" (getOrCreateAttrs 1 ["Indian"]
      (getOrCreateAttrs 1 ["Indian"] ([] : List Attr) 5).rows 9).rows = 1 := by
  have h := reconciliation_reuses_or_creates_once 1 "Indian" ([] : List Attr)
    ["Indian"] ["Indian"] 5 9
  exact ⟨⟨rfl, by decide, rfl⟩, h.2.1 rfl (by decide),
    h.2.2.2 rfl (by decide) (by decide)⟩

theorem goc_membership (uid : Nat) (names : List String) (rows : List Attr) (nid : Nat)
    (hlt : ∀ t ∈ rows, t.id < nid) (hnd : (rows.map Attr.id).Nodup) :
    (∀ n, (∃ t ∈ (getOrCreateAttrs uid names rows nid).rows,
        t.id ∈ (getOrCreateAttrs uid names rows nid).ids ∧
        t.user = uid ∧ t.name = n) ↔ n ∈ names) ∧
    (∀ i ∈ (getOrCreateAttrs uid names rows nid).ids,
      ∃ t ∈ (getOrCreateAttrs uid names rows nid).rows,
        t.id = i ∧ t.user = uid ∧ t.name ∈ names) ∧
    (∀ t ∈ rows, t.name ∉ names →
      t.id ∉ (getOrCreateAttrs uid names rows nid).ids) := by
  have hndg : (((getOrCreateAttrs uid names rows nid).rows).map Attr.id).Nodup :=
    (goc_invariant uid names rows nid hlt).2 hnd
  refine ⟨?_, ?_, ?_⟩
  · intro n
    constructor
    · rintro ⟨t, htmem, hid, hu, hn⟩
      obtain ⟨n2, hn2, t2, hfind2, hid2⟩ := (goc_ids_mem uid names rows nid t.id).mp hid
      have ht2mem := List.mem_of_find?_eq_some hfind2
      have hteq : t2 = t := List.inj_on_of_nodup_map hndg ht2mem htmem hid2
      have hm := List.find?_some hfind2
      rw [attrMatch, Bool.and_eq_true, beq_iff_eq, beq_iff_eq] at hm
      have hnn : n = n2 := by rw [← hn, ← hm.2, hteq]
      exact hnn ▸ hn2
    · intro hn
      obtain ⟨t, ht⟩ := goc_find_all uid names rows nid n hn
      have hm := List.find?_some ht
      rw [attrMatch, Bool.and_eq_true, beq_iff_eq, beq_iff_eq] at hm
      exact ⟨t, List.mem_of_find?_eq_some ht,
        (goc_ids_mem uid names rows nid t.id).mpr ⟨n, hn, t, ht, rfl⟩, hm.1, hm.2⟩
  · intro i hi
    obtain ⟨n, hn, t, hfind, hid⟩ := (goc_ids_mem uid names rows nid i).mp hi
    have hm := List.find?_some hfind
    rw [attrMatch, Bool.and_eq_true, beq_iff_eq, beq_iff_eq] at hm
    exact ⟨t, List.mem_of_find?_eq_some hfind, hid, hm.1, hm.2 ▸ hn⟩
  · intro t ht hname hid
    obtain ⟨n, hn, t2, hfind, hid2⟩ := (goc_ids_mem uid names rows nid t.id).mp hid
    have htg : t ∈ (getOrCreateAttrs uid names rows nid).rows := by
      obtain ⟨Δ, hΔ⟩ := goc_rows_append uid names rows nid
      rw [hΔ]
      exact List.mem_append_left Δ ht
    have ht2mem := List.mem_of_find?_eq_some hfind
    have hteq : t2 = t := List.inj_on_of_nodup_map hndg ht2mem htg hid2
    have hm := List.find?_some hfind
    rw [attrMatch, Bool.and_eq_true, beq_iff_eq, beq_iff_eq] at hm
    rw [hteq] at hm
    exact hname (hm.2 ▸ hn)

theorem find?_map_replace {l : List Recipe} {rid : Nat} {r2 : Recipe}
    (h2 : r2.id = rid) (hex : ∃ x ∈ l, x.id = rid) :
    (l.map (fun x => if x.id == rid then r2 else x)).find?
      (fun y => y.id == rid) = some r2 := by
  induction l with
  | nil =>
    obtain ⟨x, hx, _⟩ := hex
    exact absurd hx (List.not_mem_nil x)
  | cons x xs ih =>
    by_cases hx : x.id = rid
    · have hb : (x.id == rid) = true := beq_iff_eq.mpr hx
      have hb2 : (r2.id == rid) = true := beq_iff_eq.mpr h2
      simp only [List.map_cons, hb, if_true, List.find?, hb2]
    · have hb : (x.id == rid) = false := beq_eq_false_iff_ne.mpr hx
      have hex2 : ∃ y ∈ xs, y.id = rid := by
        obtain ⟨y, hy, hyid⟩ := hex
        rcases List.mem_cons.mp hy with he | hys
        · exact absurd (he ▸ hyid) hx
        · exact ⟨y, hys, hyid⟩
      simp only [List.map_cons, hb, Bool.false_eq_true, if_false, List.find?, ih hex2]

theorem foldl_applyScalar_user (fs : List ScalarField) :
    ∀ r, (fs.foldl applyScalar r).user = r.user := by
  induction fs with
  | nil => intro r; rfl
  | cons f fs ih =>
    intro r
    rw [List.foldl_cons, ih]
    cases f <;> rfl

theorem foldl_applyScalar_id (fs : List ScalarField) :
    ∀ r, (fs.foldl applyScalar r).id = r.id := by
  induction fs with
  | nil => intro r; rfl
  | cons f fs ih =>
    intro r
    rw [List.foldl_cons, ih]
    cases f <;> rfl

theorem foldl_applyScalar_filter (fs : List ScalarField) :
    ∀ r, fs.foldl applyScalar r =
      (fs.filter (fun f => !f.targetsUser)).foldl applyScalar r := by
  induction fs with
  | nil => intro r; rfl
  | cons f fs ih =>
    intro r
    cases f <;> exact ih _

theorem recipeGetObject_props {db : DB} {uid rid : Nat} {r : Recipe}
    (h : recipeGetObject db uid rid = some r) :
    r ∈ db.recipes ∧ r.user = uid ∧ r.id = rid := by
  unfold recipeGetObject at h
  have hmem := List.mem_of_find?_eq_some h
  rw [mem_recipeOwned] at hmem
  have hp0 := List.find?_some h
  have hp : (r.id == rid) = true := hp0
  exact ⟨hmem.1, hmem.2, beq_iff_eq.mp hp⟩

theorem performUpdate_recipeById {db : DB} (uid : Nat) {r : Recipe} (p : RecipePayload)
    (hmem : r ∈ db.recipes) :
    (performUpdate db uid r p).recipeById r.id =
      some { p.scalars.foldl applyScalar r with
        tagIds := (reconcile uid p.tags db.tags r.tagIds db.nextTagId).2.1,
        ingredientIds :=
          (reconcile uid p.ingredients db.ingredients r.ingredientIds
            db.nextIngredientId).2.1 } := by
  unfold performUpdate DB.recipeById
  dsimp only
  apply find?_map_replace
  · show (p.scalars.foldl applyScalar r).id = r.id
    exact foldl_applyScalar_id p.scalars r
  · exact ⟨r, hmem, rfl⟩

theorem update_tags_clauses (db : DB) (uid rid : Nat) (p : RecipePayload) (r : Recipe)
    (names : List String) (hwf : db.Wf) (hobj : recipeGetObject db uid rid = some r)
    (hp : p.tags = some names) :
    ∃ r2, ((recipeUpdateReq db uid rid p).2).recipeById rid = some r2 ∧
      (∀ n, (∃ t ∈ ((recipeUpdateReq db uid rid p).2).tags,
          t.id ∈ r2.tagIds ∧ t.user = uid ∧ t.name = n) ↔ n ∈ names) ∧
      (∀ i ∈ r2.tagIds, ∃ t ∈ ((recipeUpdateReq db uid rid p).2).tags,
          t.id = i ∧ t.user = uid ∧ t.name ∈ names) ∧
      (∀ t ∈ db.tags, t.name ∉ names → t.id ∉ r2.tagIds) ∧
      (names = [] → r2.tagIds = []) ∧ r2.tagIds.Nodup := by
  obtain ⟨hmem, huser, hid⟩ := recipeGetObject_props hobj
  have hreq : recipeUpdateReq db uid rid p = (200, performUpdate db uid r p) := by
    unfold recipeUpdateReq
    rw [hobj]
  have hById := performUpdate_recipeById uid p hmem
  rw [hid] at hById
  rw [hreq]
  dsimp only
  refine ⟨_, hById, ?_⟩
  have htags : (performUpdate db uid r p).tags =
      (getOrCreateAttrs uid names db.tags db.nextTagId).rows := by
    unfold performUpdate
    dsimp only
    rw [hp]
    rfl
  have htagIds : ({ p.scalars.foldl applyScalar r with
      tagIds := (reconcile uid p.tags db.tags r.tagIds db.nextTagId).2.1,
      ingredientIds := (reconcile uid p.ingredients db.ingredients r.ingredientIds
        db.nextIngredientId).2.1 } : Recipe).tagIds =
      ((getOrCreateAttrs uid names db.tags db.nextTagId).ids).dedup := by
    dsimp only
    rw [hp]
    rfl
  rw [htags, htagIds]
  have hg := goc_membership uid names db.tags db.nextTagId hwf.1 hwf.2.2.1
  refine ⟨?_, ?_, ?_, ?_, List.nodup_dedup _⟩
  · intro n
    rw [← hg.1 n]
    constructor
    · rintro ⟨t, ht, hin, hu, hn⟩
      exact ⟨t, ht, List.mem_dedup.mp hin, hu, hn⟩
    · rintro ⟨t, ht, hin, hu, hn⟩
      exact ⟨t, ht, List.mem_dedup.mpr hin, hu, hn⟩
  · intro i hi
    exact hg.2.1 i (List.mem_dedup.mp hi)
  · intro t ht hn hin
    exact hg.2.2 t ht hn (List.mem_dedup.mp hin)
  · intro h
    subst h
    rfl

theorem update_ingredients_clauses (db : DB) (uid rid : Nat) (p : RecipePayload)
    (r : Recipe) (names : List String) (hwf : db.Wf)
    (hobj : recipeGetObject db uid rid = some r) (hp : p.ingredients = some names) :
    ∃ r2, ((recipeUpdateReq db uid rid p).2).recipeById rid = some r2 ∧
      (∀ n, (∃ t ∈ ((recipeUpdateReq db uid rid p).2).ingredients,
          t.id ∈ r2.ingredientIds ∧ t.user = uid ∧ t.name = n) ↔ n ∈ names) ∧
      (∀ i ∈ r2.ingredientIds, ∃ t ∈ ((recipeUpdateReq db uid rid p).2).ingredients,
          t.id = i ∧ t.user = uid ∧ t.name ∈ names) ∧
      (∀ t ∈ db.ingredients, t.name ∉ names → t.id ∉ r2.ingredientIds) ∧
      (names = [] → r2.ingredientIds = []) ∧ r2.ingredientIds.Nodup := by
  obtain ⟨hmem, huser, hid⟩ := recipeGetObject_props hobj
  have hreq : recipeUpdateReq db uid rid p = (200, performUpdate db uid r p) := by
    unfold recipeUpdateReq
    rw [hobj]
  have hById := performUpdate_recipeById uid p hmem
  rw [hid] at hById
  rw [hreq]
  dsimp only
  refine ⟨_, hById, ?_⟩
  have hings : (performUpdate db uid r p).ingredients =
      (getOrCreateAttrs uid names db.ingredients db.nextIngredientId).rows := by
    unfold performUpdate
    dsimp only
    rw [hp]
    rfl
  have hingIds : ({ p.scalars.foldl applyScalar r with
      tagIds := (reconcile uid p.tags db.tags r.tagIds db.nextTagId).2.1,
      ingredientIds := (reconcile uid p.ingredients db.ingredients r.ingredientIds
        db.nextIngredientId).2.1 } : Recipe).ingredientIds =
      ((getOrCreateAttrs uid names db.ingredients db.nextIngredientId).ids).dedup := by
    dsimp only
    rw [hp]
    rfl
  rw [hings, hingIds]
  have hg := goc_membership uid names db.ingredients db.nextIngredientId
    hwf.2.1 hwf.2.2.2.1
  refine ⟨?_, ?_, ?_, ?_, List.nodup_dedup _⟩
  · intro n
    rw [← hg.1 n]
    constructor
    · rintro ⟨t, ht, hin, hu, hn⟩
      exact ⟨t, ht, List.mem_dedup.mp hin, hu, hn⟩
    · rintro ⟨t, ht, hin, hu, hn⟩
      exact ⟨t, ht, List.mem_dedup.mpr hin, hu, hn⟩
  · intro i hi
    exact hg.2.1 i (List.mem_dedup.mp hi)
  · intro t ht hn hin
    exact hg.2.2 t ht hn (List.mem_dedup.mp hin)
  · intro h
    subst h
    rfl

/-- Claim C1: an update by the owner whose payload contains a tags or
ingredients name list replaces that membership set with exactly the set
resolved from the payload names — every linked row is owned by the user and
carries a payload name, every payload name is linked, rows not named are
unlinked, an empty list clears the relation, memberships carry no duplicates,
and two payloads with the same name set (regardless of order or duplicates)
produce the same linked set. -/
theorem recipe_update_replaces_membership (db : DB) (uid rid : Nat)
    (p : RecipePayload) (r : Recipe) (hwf : db.Wf)
    (hobj : recipeGetObject db uid rid = some r) :
    (recipeUpdateReq db uid rid p).1 = 200 ∧
    ∃ r2, ((recipeUpdateReq db uid rid p).2).recipeById rid = some r2 ∧
      (∀ names, p.tags = some names →
        (∀ n, (∃ t ∈ ((recipeUpdateReq db uid rid p).2).tags,
            t.id ∈ r2.tagIds ∧ t.user = uid ∧ t.name = n) ↔ n ∈ names) ∧
        (∀ i ∈ r2.tagIds, ∃ t ∈ ((recipeUpdateReq db uid rid p).2).tags,
            t.id = i ∧ t.user = uid ∧ t.name ∈ names) ∧
        (∀ t ∈ db.tags, t.name ∉ names → t.id ∉ r2.tagIds) ∧
        (names = [] → r2.tagIds = []) ∧ r2.tagIds.Nodup) ∧
      (∀ names, p.ingredients = some names →
        (∀ n, (∃ t ∈ ((recipeUpdateReq db uid rid p).2).ingredients,
            t.id ∈ r2.ingredientIds ∧ t.user = uid ∧ t.name = n) ↔ n ∈ names) ∧
        (∀ i ∈ r2.ingredientIds, ∃ t ∈ ((recipeUpdateReq db uid rid p).2).ingredients,
            t.id = i ∧ t.user = uid ∧ t.name ∈ names) ∧
        (∀ t ∈ db.ingredients, t.name ∉ names → t.id ∉ r2.ingredientIds) ∧
        (names = [] → r2.ingredientIds = []) ∧ r2.ingredientIds.Nodup) ∧
      (∀ p2 names names2, p.tags = some names → p2.tags = some names2 →
        (∀ n, n ∈ names ↔ n ∈ names2) →
        ∃ r3, ((recipeUpdateReq db uid rid p2).2).recipeById rid = some r3 ∧
          ∀ n, (∃ t ∈ ((recipeUpdateReq db uid rid p).2).tags,
              t.id ∈ r2.tagIds ∧ t.user = uid ∧ t.name = n) ↔
            (∃ t ∈ ((recipeUpdateReq db uid rid p2).2).tags,
              t.id ∈ r3.tagIds ∧ t.user = uid ∧ t.name = n)) := by
  obtain ⟨hmem, huser, hid⟩ := recipeGetObject_props hobj
  have hreq : recipeUpdateReq db uid rid p = (200, performUpdate db uid r p) := by
    unfold recipeUpdateReq
    rw [hobj]
  constructor
  · rw [hreq]
  · obtain ⟨r2, h2⟩ : ∃ r2,
        ((recipeUpdateReq db uid rid p).2).recipeById rid = some r2 := by
      rw [hreq]
      dsimp only
      rw [← hid]
      exact ⟨_, performUpdate_recipeById uid p hmem⟩
    refine ⟨r2, h2, ?_, ?_, ?_⟩
    · intro names hp
      obtain ⟨r2a, h2a, hcl⟩ := update_tags_clauses db uid rid p r names hwf hobj hp
      rw [h2] at h2a
      injection h2a with he
      subst he
      exact hcl
    · intro names hp
      obtain ⟨r2a, h2a, hcl⟩ :=
        update_ingredients_clauses db uid rid p r names hwf hobj hp
      rw [h2] at h2a
      injection h2a with he
      subst he
      exact hcl
    · intro p2 names names2 hp hp2 hset
      obtain ⟨r2a, h2a, hiffa, _⟩ := update_tags_clauses db uid rid p r names hwf hobj hp
      obtain ⟨r3, h3, hiff3, _⟩ :=
        update_tags_clauses db uid rid p2 r names2 hwf hobj hp2
      rw [h2] at h2a
      injection h2a with he
      subst he
      refine ⟨r3, h3, fun n => ?_⟩
      rw [hiffa n, hiff3 n]
      exact hset n

/-- Witness for C1: recipe 5 of user 1 starts linked to tag A; a payload
naming B and C ends with membership resolved from exactly those names. -/
theorem recipe_update_replaces_membership_witness :
    ((⟨[⟨10, 1, "A"⟩, ⟨11, 1, "B"⟩], [],
        [⟨5, 1, "T", 3, 100, "", "", [10], []⟩], 12, 0⟩ : DB).Wf ∧
      recipeGetObject
        ⟨[⟨10, 1, "A"⟩, ⟨11, 1, "B"⟩], [],
          [⟨5, 1, "T", 3, 100, "", "", [10], []⟩], 12, 0⟩ 1 5 =
        some ⟨5, 1, "T", 3, 100, "", "", [10], []⟩) ∧
    ((recipeUpdateReq
        ⟨[⟨10, 1, "A"⟩, ⟨11, 1, "B"⟩], [],
          [⟨5, 1, "T", 3, 100, "", "", [10], []⟩], 12, 0⟩ 1 5
        ⟨[], some ["B", "C"], none⟩).1 = 200 ∧
      ∃ r2, ((recipeUpdateReq
          ⟨[⟨10, 1, "A"⟩, ⟨11, 1, "B"⟩], [],
            [⟨5, 1, "T", 3, 100, "", "", [10], []⟩], 12, 0⟩ 1 5
          ⟨[], some ["B", "C"], none⟩).2).recipeById 5 = some r2 ∧
        (∀ n, (∃ t ∈ ((recipeUpdateReq
              ⟨[⟨10, 1, "A"⟩, ⟨11, 1, "B"⟩], [],
                [⟨5, 1, "T", 3, 100, "", "", [10], []⟩], 12, 0⟩ 1 5
              ⟨[], some ["B", "C"], none⟩).2).tags,
            t.id ∈ r2.tagIds ∧ t.user = 1 ∧ t.name = n) ↔ n ∈ ["B", "C"])) := by
  have hwf : (⟨[⟨10, 1, "A"⟩, ⟨11, 1, "B"⟩], [],
      [⟨5, 1, "T", 3, 100, "", "", [10], []⟩], 12, 0⟩ : DB).Wf := by
    refine ⟨?_, ?_, ?_, ?_, ?_⟩ <;> decide
  have hobj : recipeGetObject
      ⟨[⟨10, 1, "A"⟩, ⟨11, 1, "B"⟩], [],
        [⟨5, 1, "T", 3, 100, "", "", [10], []⟩], 12, 0⟩ 1 5 =
      some ⟨5, 1, "T", 3, 100, "", "", [10], []⟩ := rfl
  have h := recipe_update_replaces_membership
    ⟨[⟨10, 1, "A"⟩, ⟨11, 1, "B"⟩], [], [⟨5, 1, "T", 3, 100, "", "", [10], []⟩], 12, 0⟩
    1 5 ⟨[], some ["B", "C"], none⟩ ⟨5, 1, "T", 3, 100, "", "", [10], []⟩ hwf hobj
  obtain ⟨h200, r2, h2, htags, _⟩ := h
  exact ⟨⟨hwf, hobj⟩, h200, r2, h2, (htags ["B", "C"] rfl).1⟩

/-- Claim C9: an update payload carrying an owner/user field behaves exactly
as the same payload with every user field removed — the field is ignored
entirely, no error is raised, the owner after the update equals the owner
before it, and the other supplied fields are applied normally. -/
theorem update_ignores_user_field (db : DB) (uid rid : Nat) (p : RecipePayload) :
    recipeUpdateReq db uid rid p =
      recipeUpdateReq db uid rid
        ⟨p.scalars.filter (fun f => !f.targetsUser), p.tags, p.ingredients⟩ ∧
    (∀ r, recipeGetObject db uid rid = some r →
      (recipeUpdateReq db uid rid p).1 = 200 ∧
      ∃ r2, ((recipeUpdateReq db uid rid p).2).recipeById rid = some r2 ∧
        r2.user = r.user) := by
  constructor
  · unfold recipeUpdateReq
    cases h : recipeGetObject db uid rid with
    | none => rfl
    | some r =>
      dsimp only
      unfold performUpdate
      dsimp only
      rw [← foldl_applyScalar_filter]
  · intro r hobj
    obtain ⟨hmem, huser, hid⟩ := recipeGetObject_props hobj
    have hreq : recipeUpdateReq db uid rid p = (200, performUpdate db uid r p) := by
      unfold recipeUpdateReq
      rw [hobj]
    rw [hreq]
    have hById := performUpdate_recipeById uid p hmem
    rw [hid] at hById
    refine ⟨rfl, _, hById, ?_⟩
    exact foldl_applyScalar_user p.scalars r

/-- Witness for C9: a payload that tries to set the owner to 99 leaves the
owner at 1. -/
theorem update_ignores_user_field_witness :
    recipeGetObject ⟨[], [], [⟨5, 1, "A", 3, 100, "", "", [], []⟩], 0, 0⟩ 1 5 =
      some ⟨5, 1, "A", 3, 100, "", "", [], []⟩ ∧
    ((recipeUpdateReq ⟨[], [], [⟨5, 1, "A", 3, 100, "", "", [], []⟩], 0, 0⟩ 1 5
        ⟨[ScalarField.user 99, ScalarField.title "New"], none, none⟩).1 = 200 ∧
      ∃ r2, ((recipeUpdateReq ⟨[], [], [⟨5, 1, "A", 3, 100, "", "", [], []⟩], 0, 0⟩ 1 5
          ⟨[ScalarField.user 99, ScalarField.title "New"], none, none⟩).2).recipeById 5 =
            some r2 ∧
        r2.user = (⟨5, 1, "A", 3, 100, "", "", [], []⟩ : Recipe).user) := by
  have h := (update_ignores_user_field
    ⟨[], [], [⟨5, 1, "A", 3, 100, "", "", [], []⟩], 0, 0⟩ 1 5
    ⟨[ScalarField.user 99, ScalarField.title "New"], none, none⟩).2
    ⟨5, 1, "A", 3, 100, "", "", [], []⟩ rfl
  exact ⟨rfl, h⟩

end RecipeApp
